import Mathlib

/-!
A shallow embedding of the skill-validation and catalog-generation scripts
(`scripts/validate_skills.py` and `scripts/generate_catalog.py`).

File contents (lists of lines, as produced by `str.splitlines`) are modelled
as `List String`; a Python function that can raise is modelled with `Except`.
Python string primitives (`str.strip`, `str.startswith`, slicing, `in`,
`str.split`) are modelled by structurally recursive functions over the
character list of the string, so that every definition evaluates by kernel
reduction.  Python dictionaries are modelled as association lists in which
the entry for the most recent write occurs first, so that `List.lookup`
realizes `dict.get`.
-/

/-- The single-quote character (code point 39). -/
def squoteChar : Char := Char.ofNat 39

/-- The double-quote character (code point 34). -/
def dquoteChar : Char := Char.ofNat 34

/-- A string holding one single quote. -/
def squote : String := String.singleton squoteChar

/-- Characters stripped by Python `str.strip()` on ASCII text: space, tab,
newline, carriage return, vertical tab and form feed. -/
def isPySpace (c : Char) : Bool :=
  c == ' ' || c == '\t' || c == '\n' || c == '\r' ||
    c == Char.ofNat 11 || c == Char.ofNat 12

/-- `str.strip()` on a character list: drop whitespace from both ends. -/
def charStrip (cs : List Char) : List Char :=
  ((cs.dropWhile isPySpace).reverse.dropWhile isPySpace).reverse

/-- `str.strip()`. -/
def pyStrip (s : String) : String := String.mk (charStrip s.toList)

/-- Error message for a missing opening delimiter (`validate_skills.py`). -/
def openDelimErr : String :=
  "Missing opening frontmatter delimiter " ++ squote ++ "---" ++ squote ++
    " on first line"

/-- Error message for a missing closing delimiter (`validate_skills.py`). -/
def closeDelimErr : String :=
  "Missing closing frontmatter delimiter " ++ squote ++ "---" ++ squote

/-- Embedding of `parse_frontmatter`: the first line, stripped, must equal
`---`; the closing delimiter is the first later line stripping to `---`;
on success returns the lines strictly between the delimiters and the lines
after the closing delimiter. -/
def parse_frontmatter (lines : List String) :
    Except String (List String × List String) :=
  match lines with
  | [] => .error openDelimErr
  | first :: rest =>
    if pyStrip first ≠ "---" then .error openDelimErr
    else
      match rest.findIdx? (fun l => pyStrip l == "---") with
      | none => .error closeDelimErr
      | some j => .ok (rest.take j, rest.drop (j + 1))

/-- `value.startswith(q) and value.endswith(q)` for a single-character
prefix and suffix `q`: the first and the last character both equal `q`. -/
def wrappedIn (value : String) (q : Char) : Bool :=
  value.toList.head? == some q && value.toList.getLast? == some q

/-- Embedding of `normalize_value`: empty strings and YAML block-scalar
indicators become `none`; a value wrapped in matching double or single
quotes loses its first and last character (Python `value[1:-1]`); anything
else is returned as is. -/
def normalize_value (value : String) : Option String :=
  if value = "" ∨ value = "|" ∨ value = ">" ∨ value = "|-" ∨ value = ">-" then
    none
  else if wrappedIn value dquoteChar || wrappedIn value squoteChar then
    some (String.mk ((value.toList.drop 1).dropLast))
  else
    some value

/-- `line.startswith((" ", "\t"))` from the Python sources. -/
def startsWithIndent (line : String) : Bool :=
  match line.toList with
  | c :: _ => c == ' ' || c == '\t'
  | [] => false

/-- A character matched by the class `[A-Za-z0-9_-]` of the key regex in
`parse_frontmatter_fields`. -/
def isKeyChar (c : Char) : Bool :=
  c.isAlpha || c.isDigit || c == '_' || c == '-'

/-- Embedding of the anchored regex match
`^([A-Za-z0-9_-]+):\s*(.*)$` followed by `.strip()` of group 2.  The key is
the maximal leading run of key characters (key characters never include the
colon, so greedy matching is take-while); it must be non-empty and be
followed immediately by a colon.  `\s*(.*)$` together with `.strip()` amounts
to stripping the remainder of the line. -/
def matchFieldLine (line : String) : Option (String × String) :=
  let cs := line.toList
  let key := cs.takeWhile isKeyChar
  if key.isEmpty then none
  else
    match cs.drop key.length with
    | c :: tail =>
      if c == ':' then some (String.mk key, String.mk (charStrip tail))
      else none
    | [] => none

/-- Embedding of `parse_frontmatter_fields`.  The Python dictionary of fields
is modelled as an association list in which entries written later occur
earlier (the tail's entries are placed in front of the head line's entry), so
`List.lookup` returns the value of the last occurrence of a duplicated key,
exactly as the dictionary overwrite does.  The second component records which
keys were added to the `present` set. -/
def parse_frontmatter_fields :
    List String → List (String × Option String) × List String
  | [] => ([], [])
  | line :: rest =>
    let tailAcc := parse_frontmatter_fields rest
    if pyStrip line = "" then tailAcc
    else if startsWithIndent line then tailAcc
    else
      match matchFieldLine line with
      | none => tailAcc
      | some (key, rawValue) =>
        (tailAcc.1 ++ [(key, normalize_value rawValue)],
         tailAcc.2 ++ [key])

/-- `fields.get(key)` on the Python dictionary: `none` both when the key is
absent and when the stored normalized value is `None`. -/
def getField (fields : List (String × Option String)) (key : String) :
    Option String :=
  match fields.lookup key with
  | some v => v
  | none => none

/-- A character matched by `[a-z0-9]` in `NAME_PATTERN`. -/
def isNameSegmentChar (c : Char) : Bool :=
  c.isLower || c.isDigit

/-- Split a character list at every hyphen (Python `str.split("-")`). -/
def splitHyphens : List Char → List (List Char)
  | [] => [[]]
  | c :: rest =>
    match splitHyphens rest with
    | seg :: segs => if c == '-' then [] :: seg :: segs else (c :: seg) :: segs
    | [] => [[]]

/-- Embedding of `NAME_PATTERN = ^[a-z0-9]+(?:-[a-z0-9]+)*$`: splitting on
the hyphen must produce only non-empty all-lowercase-alphanumeric segments. -/
def name_matches (name : String) : Bool :=
  (splitHyphens name.toList).all fun seg =>
    !seg.isEmpty && seg.all isNameSegmentChar

/-- `MAX_NAME_LENGTH` from `validate_skills.py`. -/
def MAX_NAME_LENGTH : Nat := 64

/-- `MAX_DESC_LENGTH` from `validate_skills.py`. -/
def MAX_DESC_LENGTH : Nat := 1024

/-- `MAX_COMPAT_LENGTH` from `validate_skills.py`. -/
def MAX_COMPAT_LENGTH : Nat := 500

/-- Error message: required field `name` missing. -/
def missingNameErr : String := "Frontmatter missing required field: name"

/-- Error message: field `name` empty. -/
def nameNonEmptyErr : String :=
  "Frontmatter field " ++ squote ++ "name" ++ squote ++
    " must be a non-empty string"

/-- Error message: field `name` too long. -/
def nameLengthErr : String :=
  "Frontmatter field " ++ squote ++ "name" ++ squote ++ " exceeds 64 chars"

/-- Error message: field `name` fails the naming pattern. -/
def namePatternErr : String :=
  "Frontmatter field " ++ squote ++ "name" ++ squote ++
    " must be lowercase letters, numbers, and single hyphens only"

/-- Error message: field `name` does not match the directory name. -/
def nameDirErr : String :=
  "Frontmatter field " ++ squote ++ "name" ++ squote ++
    " must match the parent directory name"

/-- Error message: required field `description` missing. -/
def missingDescErr : String :=
  "Frontmatter missing required field: description"

/-- Error message: field `description` empty. -/
def descNonEmptyErr : String :=
  "Frontmatter field " ++ squote ++ "description" ++ squote ++
    " must be a non-empty string"

/-- Error message: field `description` too long. -/
def descLengthErr : String :=
  "Frontmatter field " ++ squote ++ "description" ++ squote ++
    " exceeds 1024 chars"

/-- Error message: field `compatibility` empty. -/
def compatNonEmptyErr : String :=
  "Frontmatter field " ++ squote ++ "compatibility" ++ squote ++
    " must be a non-empty string"

/-- Error message: field `compatibility` too long. -/
def compatLengthErr : String :=
  "Frontmatter field " ++ squote ++ "compatibility" ++ squote ++
    " exceeds 500 chars"

/-- Error message: empty body. -/
def missingBodyErr : String := "Missing markdown content after frontmatter"

/-- The `name` block of `validate_skill` (missing / empty / length, pattern
and directory checks, appended in the source order). -/
def nameErrors (fields : List (String × Option String))
    (present : List String) (parentDir : String) : List String :=
  if "name" ∉ present then [missingNameErr]
  else
    match getField fields "name" with
    | none => [nameNonEmptyErr]
    | some nv =>
      if nv = "" then [nameNonEmptyErr]
      else
        (if nv.length > MAX_NAME_LENGTH then [nameLengthErr] else []) ++
        (if !name_matches nv then [namePatternErr] else []) ++
        (if parentDir ≠ nv then [nameDirErr] else [])

/-- The `description` block of `validate_skill`. -/
def descriptionErrors (fields : List (String × Option String))
    (present : List String) : List String :=
  if "description" ∉ present then [missingDescErr]
  else
    match getField fields "description" with
    | none => [descNonEmptyErr]
    | some dv =>
      if dv = "" then [descNonEmptyErr]
      else if dv.length > MAX_DESC_LENGTH then [descLengthErr]
      else []

/-- The `compatibility` block of `validate_skill`. -/
def compatibilityErrors (fields : List (String × Option String))
    (present : List String) : List String :=
  if "compatibility" ∈ present then
    match getField fields "compatibility" with
    | none => [compatNonEmptyErr]
    | some cv =>
      if cv = "" then [compatNonEmptyErr]
      else if cv.length > MAX_COMPAT_LENGTH then [compatLengthErr]
      else []
  else []

/-- `"\n".join(body_lines)` as a character list. -/
def joinLines : List String → List Char
  | [] => []
  | [l] => l.toList
  | l :: rest => l.toList ++ '\n' :: joinLines rest

/-- The body check of `validate_skill`:
`"\n".join(body_lines).strip()` must be non-empty. -/
def bodyErrors (bodyLines : List String) : List String :=
  if charStrip (joinLines bodyLines) = [] then [missingBodyErr]
  else []

/-- Embedding of `validate_skill`, with the file contents already split into
lines and the containing directory name passed explicitly (the Python
function receives a path, reads the file, and takes `path.parent.name`; the
read itself is filesystem glue outside the core). -/
def validate_skill (lines : List String) (parentDir : String) : List String :=
  match parse_frontmatter lines with
  | .error e => [e]
  | .ok (frontmatterLines, bodyLines) =>
    let res := parse_frontmatter_fields frontmatterLines
    nameErrors res.1 res.2 parentDir ++
      descriptionErrors res.1 res.2 ++
      compatibilityErrors res.1 res.2 ++
      bodyErrors bodyLines

/-- Embedding of `parse_metadata_version` from `generate_catalog.py`, with
the `in_metadata` flag made an explicit argument (the Python loop starts with
`in_metadata = False`).  A line stripping to `metadata:` turns the flag on;
while the flag is on, a non-indented line turns it off, an indented line with
no colon is skipped, and an indented line whose text before the first colon
strips to `version` makes the function return `normalize_value` of the
stripped remainder (even when that is `None`). -/
def parse_metadata_version (lines : List String) (inMetadata : Bool) :
    Option String :=
  match lines with
  | [] => none
  | line :: rest =>
    if pyStrip line = "metadata:" then parse_metadata_version rest true
    else if inMetadata then
      if !startsWithIndent line then parse_metadata_version rest false
      else if !line.toList.contains ':' then parse_metadata_version rest true
      else
        let stripped := charStrip line.toList
        let key := stripped.takeWhile (fun c => c ≠ ':')
        let rawValue := stripped.drop (key.length + 1)
        if String.mk (charStrip key) = "version" then
          normalize_value (String.mk (charStrip rawValue))
        else parse_metadata_version rest true
    else parse_metadata_version rest false

/-- A JSON value, as produced by `json.loads`. -/
inductive Json where
  | str : String → Json
  | num : Int → Json
  | boolean : Bool → Json
  | null : Json
  | arr : List Json → Json
  | obj : List (String × Json) → Json

/-- The observable states of the optional `marketplace.json` sidecar file:
absent, unreadable (`read_text` raises), holding text that is not valid JSON
(`json.loads` raises), or holding a parsed JSON value. -/
inductive Sidecar where
  | missing : Sidecar
  | unreadable : Sidecar
  | malformed : Sidecar
  | parsed : Json → Sidecar

/-- Embedding of `read_marketplace`: a missing file returns `{}` and any
exception while reading or parsing is swallowed into `{}`; otherwise the
parsed JSON value is returned. -/
def read_marketplace : Sidecar → Json
  | .parsed j => j
  | _ => .obj []

/-- One discovered `SKILL.md` file, as seen by `build_catalog`: the POSIX
relative path of its directory, its contents split into lines, and the state
of the sidecar file sitting next to it. -/
structure SkillFile where
  path : String
  lines : List String
  sidecar : Sidecar

/-- The exceptions `build_catalog` can raise: the `ValueError`s it raises
itself, and the `AttributeError` raised by `marketplace.get(...)` when the
sidecar parsed to a JSON value that is not an object. -/
inductive BuildError where
  | valueError : String → BuildError
  | attrError : BuildError

/-- One catalog entry, as assembled by `build_catalog`.  Optional fields
model the keys that are only conditionally inserted into the Python dict. -/
structure CatalogEntry where
  name : String
  description : String
  path : String
  version : Option String := none
  license : Option String := none
  compatibility : Option String := none
  tags : Option (List Json) := none

instance : Inhabited CatalogEntry := ⟨{ name := "", description := "", path := "" }⟩

/-- Python truthiness of `fields.get(...)`: `None` and the empty string are
falsy. -/
def truthyOpt (v : Option String) : Bool :=
  !(v.getD "" == "")

/-- Embedding of the per-file part of the `build_catalog` loop.  Both
`marketplace.get` calls are modelled by the single match on the marketplace
value: when the sidecar parsed to a non-object, Python raises
`AttributeError` at the first `marketplace.get` it evaluates (`version` when
the nested metadata version is falsy, always `tags`), so the result is the
`attrError` outcome in exactly the same cases. -/
def build_entry_fields (f : SkillFile) (frontmatterLines : List String) :
    Except BuildError CatalogEntry :=
    let fields := (parse_frontmatter_fields frontmatterLines).1
    let name := getField fields "name"
    let description := getField fields "description"
    let licenseName := getField fields "license"
    let compatibility := getField fields "compatibility"
    if !truthyOpt name || !truthyOpt description then
      .error (.valueError (f.path ++ ": missing required frontmatter fields"))
    else
      let metadataVersion := parse_metadata_version frontmatterLines false
      match read_marketplace f.sidecar with
      | .obj kvs =>
        .ok
          { name := name.getD ""
            description := description.getD ""
            path := f.path
            version :=
              if truthyOpt metadataVersion then metadataVersion
              else
                match kvs.lookup "version" with
                | some (Json.str s) => some s
                | _ => none
            license := if truthyOpt licenseName then licenseName else none
            compatibility :=
              if truthyOpt compatibility then compatibility else none
            tags :=
              match kvs.lookup "tags" with
              | some (Json.arr ts) => if ts.isEmpty then none else some ts
              | _ => none }
      | _ => .error .attrError

/-- The per-file part of the `build_catalog` loop: parse the frontmatter,
propagating a delimiter failure as a `ValueError` naming the file, then
assemble the entry from the fields. -/
def build_entry (f : SkillFile) : Except BuildError CatalogEntry :=
  match parse_frontmatter f.lines with
  | .error e => .error (.valueError (f.path ++ ": " ++ e))
  | .ok (frontmatterLines, _bodyLines) => build_entry_fields f frontmatterLines

/-- Python string comparison `a < b`: lexicographic by code point. -/
def charListLt : List Char → List Char → Bool
  | _, [] => false
  | [], _ :: _ => true
  | a :: as, b :: bs =>
    if a < b then true
    else if b < a then false
    else charListLt as bs

/-- Python string comparison `a < b` on `String`. -/
def pyStrLt (a b : String) : Bool := charListLt a.toList b.toList

/-- Insert an entry into a list sorted ascending by `name`, after every
entry whose name is less than or equal to the new one.  Folding this over
the discovery order realizes a stable ascending sort by `name`, which is the
observable behavior of `catalog_entries.sort(key=lambda item: item["name"])`. -/
def insertByName (x : CatalogEntry) : List CatalogEntry → List CatalogEntry
  | [] => [x]
  | y :: ys =>
    if pyStrLt x.name y.name then x :: y :: ys else y :: insertByName x ys

/-- Stable ascending sort by `name` of the catalog entries. -/
def sortByName (entries : List CatalogEntry) : List CatalogEntry :=
  entries.foldl (fun acc x => insertByName x acc) []

/-- The built catalog: `{"skills": catalog_entries}`. -/
structure Catalog where
  skills : List CatalogEntry

/-- The `for skill_file in skill_files` loop of `build_catalog`: build an
entry per file in discovery order, appending to `catalog_entries`; the first
raised exception aborts the whole loop. -/
def collectEntries : List SkillFile → Except BuildError (List CatalogEntry)
  | [] => .ok []
  | f :: rest =>
    match build_entry f with
    | .error e => .error e
    | .ok entry =>
      match collectEntries rest with
      | .error e => .error e
      | .ok entries => .ok (entry :: entries)

/-- Embedding of `build_catalog` over the list of discovered files: run the
collection loop, then sort the entries by name. -/
def build_catalog (files : List SkillFile) : Except BuildError Catalog :=
  match collectEntries files with
  | .error e => .error e
  | .ok entries => .ok { skills := sortByName entries }

/-- Decidable equality on `Except`, used only to let concrete runs of the
embedded functions be checked by `decide`. -/
instance exceptDecEq {ε α : Type} [DecidableEq ε] [DecidableEq α] :
    DecidableEq (Except ε α)
  | .error e, .error f =>
    if h : e = f then .isTrue (by rw [h])
    else .isFalse (fun hh => by cases hh; exact h rfl)
  | .error _, .ok _ => .isFalse (fun hh => by cases hh)
  | .ok _, .error _ => .isFalse (fun hh => by cases hh)
  | .ok a, .ok b =>
    if h : a = b then .isTrue (by rw [h])
    else .isFalse (fun hh => by cases hh; exact h rfl)

example : pyStrip "  a  " = "a" := by decide

example :
    parse_frontmatter ["---", "name: demo-skill", "description: A demo.",
      "---", "", "# Title", "Body text"] =
      .ok (["name: demo-skill", "description: A demo."],
           ["", "# Title", "Body text"]) := by decide

example :
    validate_skill ["---", "name: demo-skill", "description: A demo.",
      "---", "", "# Title", "Body text"] "demo-skill" = [] := by decide

example :
    validate_skill ["---", "name: Demo", "description: A.", "---", "Body"]
      "Demo" = [namePatternErr] := by decide

example : normalize_value (squote ++ squote) = some "" := by decide

example : normalize_value "|" = none := by decide

example : parse_metadata_version ["  metadata:", "  version: 2"] false = some "2" := by decide

example : parse_metadata_version ["metadata:", "  other: 1", "  version: 3.1"] false = some "3.1" := by decide

example : parse_metadata_version ["metadata:", "top: 1", "  version: 3"] false = none := by decide

example :
    build_catalog [⟨"skills/a-skill",
      ["---", "name: a-skill", "description: A.", "---", "Body"], .missing⟩] =
    .ok ⟨[{ name := "a-skill", description := "A.",
            path := "skills/a-skill" }]⟩ := rfl

example :
    build_catalog [⟨"skills/b-skill",
      ["---", "name: b-skill", "description: B.", "---", "Body"],
      .parsed (.obj [("version", .str "1.2"), ("tags", .arr [.str "x"])])⟩,
      ⟨"skills/a-skill",
      ["---", "name: a-skill", "description: A.", "---", "Body"], .missing⟩] =
    .ok ⟨[{ name := "a-skill", description := "A.", path := "skills/a-skill" },
          { name := "b-skill", description := "B.", path := "skills/b-skill",
            version := some "1.2", tags := some [.str "x"] }]⟩ := rfl

example :
    build_catalog [⟨"skills/c-skill",
      ["---", "name: c-skill", "description: C.", "---", "Body"],
      .parsed (.arr [])⟩] = .error .attrError := rfl

/-! ### Helper lemmas -/

theorem list_lookup_append {β : Type} (a b : List (String × β)) (k : String) :
    (a ++ b).lookup k = ((a.lookup k).orElse fun _ => b.lookup k) := by
  induction a with
  | nil => rfl
  | cons hd t ih =>
    obtain ⟨k', v⟩ := hd
    simp only [List.cons_append, List.lookup]
    cases hbeq : (k == k') <;> simp [ih]

theorem present_iff_lookup_isSome (fm : List String) (k : String) :
    k ∈ (parse_frontmatter_fields fm).2 ↔
      ((parse_frontmatter_fields fm).1.lookup k).isSome = true := by
  induction fm with
  | nil => simp [parse_frontmatter_fields, List.lookup]
  | cons line rest ih =>
    simp only [parse_frontmatter_fields]
    split
    · exact ih
    · split
      · exact ih
      · split
        · exact ih
        · rename_i key rawValue heq
          rw [list_lookup_append]
          cases hbeq : (k == key) with
          | true =>
            have hk : k = key := by simpa using hbeq
            subst hk
            have hmem : k ∈ (parse_frontmatter_fields rest).2 ++ [k] :=
              List.mem_append_right _ (List.mem_singleton.mpr rfl)
            have hsome :
                ((List.lookup k (parse_frontmatter_fields rest).1).orElse
                  fun _ => List.lookup k [(k, normalize_value rawValue)]).isSome
                  = true := by
              cases h2 : List.lookup k (parse_frontmatter_fields rest).1 <;>
                simp [List.lookup, Option.orElse]
            exact ⟨fun _ => hsome, fun _ => hmem⟩
          | false =>
            have hk : ¬ k = key := by simpa using hbeq
            simp [List.lookup, hbeq, hk, ih]

/-! ### C4 -/

/-- C4: `parse_frontmatter` fails with the opening-delimiter error iff the
first line, stripped, is not exactly `---` (vacuously when the input is
empty), regardless of later content; otherwise it fails with the
closing-delimiter error iff no line at index 1 or later strips to `---`;
otherwise it succeeds and returns the lines strictly between the opening
line and the first later marker line as the metadata block, and all lines
after that closing marker line as content. -/
theorem c4_parse_frontmatter_characterization (lines : List String) :
    (parse_frontmatter lines = .error openDelimErr ↔
      ∀ first ∈ lines.head?, pyStrip first ≠ "---")
    ∧ (parse_frontmatter lines = .error closeDelimErr ↔
      ∃ first rest, lines = first :: rest ∧ pyStrip first = "---" ∧
        ∀ l ∈ rest, pyStrip l ≠ "---")
    ∧ (∀ first rest j, lines = first :: rest → pyStrip first = "---" →
        rest.findIdx? (fun l => pyStrip l == "---") = some j →
        parse_frontmatter lines = .ok (rest.take j, rest.drop (j + 1))) := by
  have hne : openDelimErr ≠ closeDelimErr := by decide
  cases lines with
  | nil =>
    refine ⟨by simp [parse_frontmatter], ?_, ?_⟩
    · constructor
      · intro hx
        injection hx with hh
        exact absurd hh hne
      · rintro ⟨f, r, heq, -, -⟩
        exact absurd heq (by simp)
    · intro f r j heq
      exact absurd heq (by simp)
  | cons first rest =>
    by_cases h : pyStrip first = "---"
    · cases hf : rest.findIdx? (fun l => pyStrip l == "---") with
      | none =>
        have hp : parse_frontmatter (first :: rest) = .error closeDelimErr := by
          simp [parse_frontmatter, h, hf]
        refine ⟨?_, ?_, ?_⟩
        · rw [hp]
          constructor
          · intro hx
            injection hx with hh
            exact absurd hh.symm hne
          · intro hall
            exact absurd h (hall first (by simp))
        · rw [hp]
          constructor
          · intro _
            refine ⟨first, rest, rfl, h, fun l hl => ?_⟩
            have := List.findIdx?_eq_none_iff.mp hf l hl
            simpa using this
          · intro _
            rfl
        · intro f r j heq hpf hfi
          injection heq with h1 h2
          subst h1; subst h2
          rw [hf] at hfi
          cases hfi
      | some j =>
        have hp : parse_frontmatter (first :: rest) =
            .ok (rest.take j, rest.drop (j + 1)) := by
          simp [parse_frontmatter, h, hf]
        refine ⟨?_, ?_, ?_⟩
        · rw [hp]
          constructor
          · intro hx
            cases hx
          · intro hall
            exact absurd h (hall first (by simp))
        · rw [hp]
          constructor
          · intro hx
            cases hx
          · rintro ⟨f, r, heq, hpf, hall⟩
            injection heq with h1 h2
            subst h1; subst h2
            have hnone : rest.findIdx? (fun l => pyStrip l == "---") = none :=
              List.findIdx?_eq_none_iff.mpr (fun l hl => by
                simpa using hall l hl)
            rw [hf] at hnone
            cases hnone
        · intro f r j' heq hpf hfi
          injection heq with h1 h2
          subst h1; subst h2
          rw [hf] at hfi
          injection hfi with hj
          subst hj
          exact hp
    · have hp : parse_frontmatter (first :: rest) = .error openDelimErr := by
        simp [parse_frontmatter, h]
      refine ⟨?_, ?_, ?_⟩
      · rw [hp]
        constructor
        · intro _ f hfm
          have hfe : first = f := by simpa using hfm
          subst hfe
          exact h
        · intro _
          rfl
      · rw [hp]
        constructor
        · intro hx
          injection hx with hh
          exact absurd hh hne
        · rintro ⟨f, r, heq, hpf, -⟩
          injection heq with h1 h2
          subst h1
          exact absurd hpf h
      · intro f r j heq hpf
        injection heq with h1 h2
        subst h1
        exact absurd hpf h

/-- Witness for C4: a concrete successful parse obtained from the
characterization theorem. -/
theorem c4_witness :
    parse_frontmatter ["---", "a", "---", "b"] = .ok (["a"], ["b"]) := by
  have h := (c4_parse_frontmatter_characterization ["---", "a", "---", "b"]).2.2
  exact h "---" ["a", "---", "b"] 1 rfl (by decide) (by decide)

/-! ### C7 -/

/-- The trimmed raw values treated as absent by `normalize_value`: the empty
string and the four block-scalar indicator tokens. -/
def isAbsentToken (s : String) : Prop :=
  s = "" ∨ s = "|" ∨ s = ">" ∨ s = "|-" ∨ s = ">-"

instance (s : String) : Decidable (isAbsentToken s) := by
  unfold isAbsentToken
  infer_instance

/-- C7: normalization of a raw field value first strips surrounding
whitespace, then maps the empty string and the block-scalar indicator tokens
to absent, then strips exactly one layer of quotes when the whole stripped
value starts and ends with the same quote character (single or double), and
otherwise returns the stripped value unchanged.  (At the call sites the raw
value is stripped before `normalize_value` is applied, so normalization is
`normalize_value (pyStrip v)`.) -/
theorem c7_normalize_value_characterization (v : String) :
    (isAbsentToken (pyStrip v) → normalize_value (pyStrip v) = none)
    ∧ (¬ isAbsentToken (pyStrip v) →
        (∃ q, (q = dquoteChar ∨ q = squoteChar) ∧
          (pyStrip v).toList.head? = some q ∧
          (pyStrip v).toList.getLast? = some q) →
        normalize_value (pyStrip v) =
          some (String.mk (((pyStrip v).toList.drop 1).dropLast)))
    ∧ (¬ isAbsentToken (pyStrip v) →
        (¬ ∃ q, (q = dquoteChar ∨ q = squoteChar) ∧
          (pyStrip v).toList.head? = some q ∧
          (pyStrip v).toList.getLast? = some q) →
        normalize_value (pyStrip v) = some (pyStrip v)) := by
  refine ⟨?_, ?_, ?_⟩
  · intro h
    exact if_pos h
  · intro hno hex
    obtain ⟨q, hq, hh, hl⟩ := hex
    have hw : (wrappedIn (pyStrip v) dquoteChar ||
        wrappedIn (pyStrip v) squoteChar) = true := by
      cases hq with
      | inl h1 =>
        subst h1
        simp only [wrappedIn, Bool.or_eq_true, Bool.and_eq_true, beq_iff_eq]
        exact Or.inl ⟨hh, hl⟩
      | inr h1 =>
        subst h1
        simp only [wrappedIn, Bool.or_eq_true, Bool.and_eq_true, beq_iff_eq]
        exact Or.inr ⟨hh, hl⟩
    have hno' : ¬ (pyStrip v = "" ∨ pyStrip v = "|" ∨ pyStrip v = ">" ∨
        pyStrip v = "|-" ∨ pyStrip v = ">-") := hno
    unfold normalize_value
    rw [if_neg hno', if_pos hw]
  · intro hno hnex
    have hw : (wrappedIn (pyStrip v) dquoteChar ||
        wrappedIn (pyStrip v) squoteChar) = false := by
      cases hwd : wrappedIn (pyStrip v) dquoteChar with
      | true =>
        have hp : (pyStrip v).toList.head? = some dquoteChar ∧
            (pyStrip v).toList.getLast? = some dquoteChar := by
          simpa [wrappedIn] using hwd
        exact absurd ⟨dquoteChar, Or.inl rfl, hp.1, hp.2⟩ hnex
      | false =>
        cases hws : wrappedIn (pyStrip v) squoteChar with
        | true =>
          have hp : (pyStrip v).toList.head? = some squoteChar ∧
              (pyStrip v).toList.getLast? = some squoteChar := by
            simpa [wrappedIn] using hws
          exact absurd ⟨squoteChar, Or.inr rfl, hp.1, hp.2⟩ hnex
        | false => rfl
    have hno' : ¬ (pyStrip v = "" ∨ pyStrip v = "|" ∨ pyStrip v = ">" ∨
        pyStrip v = "|-" ∨ pyStrip v = ">-") := hno
    unfold normalize_value
    rw [if_neg hno', if_neg (by simp [hw])]

/-- Witness for C7: the three normalization branches exercised at concrete
inputs through the characterization theorem. -/
theorem c7_witness :
    normalize_value (pyStrip (" " ++ squote ++ "hi" ++ squote ++ " ")) =
      some "hi"
    ∧ normalize_value (pyStrip " | ") = none
    ∧ normalize_value (pyStrip "  plain value ") = some "plain value" := by
  refine ⟨?_, ?_, ?_⟩
  · have h :=
      (c7_normalize_value_characterization
        (" " ++ squote ++ "hi" ++ squote ++ " ")).2.1
    have h2 := h (by decide) ⟨squoteChar, Or.inr rfl, by decide, by decide⟩
    exact h2.trans (by decide)
  · exact (c7_normalize_value_characterization " | ").1 (by decide)
  · have h := (c7_normalize_value_characterization "  plain value ").2.2
    have h2 := h (by decide) ?_
    · exact h2.trans (by decide)
    · rintro ⟨q, hq, hh, -⟩
      cases hq with
      | inl h1 =>
        subst h1
        exact absurd hh (by decide)
      | inr h1 =>
        subst h1
        exact absurd hh (by decide)

/-! ### C10 -/

/-- C10: the field table and the present-key set built by
`parse_frontmatter_fields` always have exactly the same keys: a key is in the
present set iff it has an entry in the field table.  Consequently a field
line whose value normalizes to absent (such as `name: |`) is still counted
as present, so the validator reports the must-be-non-empty error for it and
never the missing-required-field error. -/
theorem c10_present_matches_field_table :
    (∀ fm k, k ∈ (parse_frontmatter_fields fm).2 ↔
      ((parse_frontmatter_fields fm).1.lookup k).isSome = true)
    ∧ validate_skill ["---", "name: |", "description: d", "---", "body"] "x" =
        [nameNonEmptyErr]
    ∧ missingNameErr ∉
        validate_skill ["---", "name: |", "description: d", "---", "body"]
          "x" :=
  ⟨present_iff_lookup_isSome, by decide, by decide⟩

/-! ### C8 -/

/-- The contribution of a single metadata line to the field table: blank
lines, indented lines, and lines not matching the key/value shape contribute
nothing; a matching line contributes its key and normalized value. -/
def lineField (line : String) : Option (String × Option String) :=
  if pyStrip line = "" then none
  else if startsWithIndent line then none
  else
    match matchFieldLine line with
    | none => none
    | some (key, rawValue) => some (key, normalize_value rawValue)

theorem pff_cons_none (line : String) (rest : List String)
    (h : lineField line = none) :
    parse_frontmatter_fields (line :: rest) = parse_frontmatter_fields rest := by
  unfold lineField at h
  simp only [parse_frontmatter_fields]
  split
  · rfl
  · split
    · rfl
    · rename_i h1 h2
      rw [if_neg h1, if_neg h2] at h
      split
      · rfl
      · rename_i key rawValue heq
        rw [heq] at h
        cases h

theorem pff_cons_some (line : String) (rest : List String)
    (k : String) (v : Option String) (h : lineField line = some (k, v)) :
    parse_frontmatter_fields (line :: rest) =
      ((parse_frontmatter_fields rest).1 ++ [(k, v)],
       (parse_frontmatter_fields rest).2 ++ [k]) := by
  unfold lineField at h
  simp only [parse_frontmatter_fields]
  split
  · rename_i h1
    rw [if_pos h1] at h
    cases h
  · rename_i h1
    split
    · rename_i h2
      rw [if_neg h1, if_pos h2] at h
      cases h
    · rename_i h2
      rw [if_neg h1, if_neg h2] at h
      split
      · rename_i heq
        rw [heq] at h
        cases h
      · rename_i key rawValue heq
        rw [heq] at h
        injection h with hkv
        injection hkv with hk hv
        subst hk
        subst hv
        rfl

theorem list_findSome?_append {α β : Type} (a b : List α) (f : α → Option β) :
    (a ++ b).findSome? f = ((a.findSome? f).orElse fun _ => b.findSome? f) := by
  induction a with
  | nil => rfl
  | cons x t ih =>
    simp only [List.cons_append, List.findSome?_cons]
    cases hx : f x <;> simp [ih]

/-- C8: for every sequence of metadata lines, the field table maps each key
to the normalized value of the last line carrying that key (last write
wins — the first match when scanning the reversed list), and blank lines,
indented lines, and lines not matching the key/value shape can be removed
anywhere without changing the field table or the present-key set. -/
theorem c8_last_write_wins :
    (∀ fm k, (parse_frontmatter_fields fm).1.lookup k =
      fm.reverse.findSome? (fun line =>
        match lineField line with
        | some p => if p.1 = k then some p.2 else none
        | none => none))
    ∧ (∀ pre line post, lineField line = none →
        parse_frontmatter_fields (pre ++ line :: post) =
          parse_frontmatter_fields (pre ++ post)) := by
  constructor
  · intro fm k
    induction fm with
    | nil => rfl
    | cons line rest ih =>
      rw [List.reverse_cons, list_findSome?_append]
      cases hlf : lineField line with
      | none =>
        rw [pff_cons_none line rest hlf, ih]
        cases hres : rest.reverse.findSome? (fun line =>
            match lineField line with
            | some p => if p.1 = k then some p.2 else none
            | none => none) <;>
          simp [List.findSome?_cons, hlf, Option.orElse]
      | some p =>
        obtain ⟨k0, v0⟩ := p
        rw [pff_cons_some line rest k0 v0 hlf, list_lookup_append, ih]
        have hsingle : (List.findSome? (fun line =>
            match lineField line with
            | some p => if p.1 = k then some p.2 else none
            | none => none) [line]) =
            List.lookup k [(k0, v0)] := by
          simp only [List.findSome?_cons, List.findSome?_nil, hlf, List.lookup]
          by_cases hk : k0 = k
          · subst hk
            simp
          · have hbeq : (k == k0) = false := by
              simp [BEq.beq]
              exact fun hh => hk hh.symm
            simp [hk, hbeq, List.lookup]
        rw [hsingle]
  · intro pre line post hlf
    induction pre with
    | nil =>
      simpa using pff_cons_none line post hlf
    | cons p t ih =>
      cases hp : lineField p with
      | none =>
        simp only [List.cons_append]
        rw [pff_cons_none p _ hp, pff_cons_none p _ hp]
        exact ih
      | some kv =>
        obtain ⟨k0, v0⟩ := kv
        simp only [List.cons_append]
        rw [pff_cons_some p _ k0 v0 hp, pff_cons_some p _ k0 v0 hp, ih]

/-- Witness for C8: the last duplicate wins at a concrete input, and a
concrete indented line is skipped without effect. -/
theorem c8_witness :
    (parse_frontmatter_fields ["a: 1", "  nested: x", "a: 2"]).1.lookup "a" =
      some (some "2")
    ∧ parse_frontmatter_fields (["a: 1"] ++ "  nested: x" :: ["a: 2"]) =
        parse_frontmatter_fields (["a: 1"] ++ ["a: 2"]) := by
  constructor
  · have h := c8_last_write_wins.1 ["a: 1", "  nested: x", "a: 2"] "a"
    exact h.trans (by decide)
  · exact c8_last_write_wins.2 ["a: 1"] "  nested: x" ["a: 2"] (by decide)

/-! ### C1 -/

theorem mem_present_of_getField_some (fm : List String) (k x : String)
    (h : getField (parse_frontmatter_fields fm).1 k = some x) :
    k ∈ (parse_frontmatter_fields fm).2 := by
  rw [present_iff_lookup_isSome]
  unfold getField at h
  cases hl : (parse_frontmatter_fields fm).1.lookup k with
  | none =>
    rw [hl] at h
    cases h
  | some v => simp [hl]

/-- C1 counterexample: an input satisfying all the hypotheses of the claim
(opening marker, closing marker, non-empty extracted name, description and
content) on which `validate_skill` nevertheless reports an error, because
the name fails the lowercase naming pattern. -/
theorem c1_counterexample :
    parse_frontmatter ["---", "name: Demo", "description: A.", "---", "Body"]
      = .ok (["name: Demo", "description: A."], ["Body"])
    ∧ getField
        (parse_frontmatter_fields ["name: Demo", "description: A."]).1 "name"
        = some "Demo"
    ∧ getField
        (parse_frontmatter_fields
          ["name: Demo", "description: A."]).1 "description" = some "A."
    ∧ charStrip (joinLines ["Body"]) ≠ []
    ∧ validate_skill ["---", "name: Demo", "description: A.", "---", "Body"]
        "Demo" = [namePatternErr]
    ∧ validate_skill ["---", "name: Demo", "description: A.", "---", "Body"]
        "Demo" ≠ [] := by
  refine ⟨by decide, by decide, by decide, by decide, by decide, by decide⟩

/-- C1 (amended): validate returns an empty error list for every input with
an opening and a closing marker whose extracted name is non-empty, at most
64 characters, matches the naming pattern and equals the containing
directory name, whose extracted description is non-empty and at most 1024
characters, whose compatibility value (whenever the key is present) is
non-empty and at most 500 characters, and whose content block is non-empty
after stripping. -/
theorem c1_amended_valid_inputs
    (lines : List String) (parentDir : String) (fm body : List String)
    (hp : parse_frontmatter lines = .ok (fm, body))
    (n : String)
    (hn : getField (parse_frontmatter_fields fm).1 "name" = some n)
    (hn0 : n ≠ "")
    (hnlen : n.length ≤ MAX_NAME_LENGTH)
    (hnpat : name_matches n = true)
    (hdir : parentDir = n)
    (d : String)
    (hd : getField (parse_frontmatter_fields fm).1 "description" = some d)
    (hd0 : d ≠ "")
    (hdlen : d.length ≤ MAX_DESC_LENGTH)
    (hcompat : "compatibility" ∈ (parse_frontmatter_fields fm).2 →
      ∃ c, getField (parse_frontmatter_fields fm).1 "compatibility" = some c ∧
        c ≠ "" ∧ c.length ≤ MAX_COMPAT_LENGTH)
    (hbody : charStrip (joinLines body) ≠ []) :
    validate_skill lines parentDir = [] := by
  have hsplit : validate_skill lines parentDir =
      nameErrors (parse_frontmatter_fields fm).1
          (parse_frontmatter_fields fm).2 parentDir ++
        descriptionErrors (parse_frontmatter_fields fm).1
          (parse_frontmatter_fields fm).2 ++
        compatibilityErrors (parse_frontmatter_fields fm).1
          (parse_frontmatter_fields fm).2 ++
        bodyErrors body := by
    unfold validate_skill
    rw [hp]
  have hnameMem := mem_present_of_getField_some fm "name" n hn
  have hdescMem := mem_present_of_getField_some fm "description" d hd
  have hname : nameErrors (parse_frontmatter_fields fm).1
      (parse_frontmatter_fields fm).2 parentDir = [] := by
    have hlen : ¬ n.length > MAX_NAME_LENGTH := by omega
    simp [nameErrors, hnameMem, hn, hn0, hlen, hnpat, hdir]
  have hdesc : descriptionErrors (parse_frontmatter_fields fm).1
      (parse_frontmatter_fields fm).2 = [] := by
    have hlen : ¬ d.length > MAX_DESC_LENGTH := by omega
    simp [descriptionErrors, hdescMem, hd, hd0, hlen]
  have hcomp : compatibilityErrors (parse_frontmatter_fields fm).1
      (parse_frontmatter_fields fm).2 = [] := by
    by_cases hc : "compatibility" ∈ (parse_frontmatter_fields fm).2
    · obtain ⟨c, hcf, hc0, hclen⟩ := hcompat hc
      have hlen : ¬ c.length > MAX_COMPAT_LENGTH := by omega
      simp [compatibilityErrors, hc, hcf, hc0, hlen]
    · simp [compatibilityErrors, hc]
  have hbody' : bodyErrors body = [] := by
    simp [bodyErrors, hbody]
  rw [hsplit, hname, hdesc, hcomp, hbody']
  rfl

/-- Witness for the amended C1: Example 1 of the specification, checked by
applying the amended theorem at its concrete input. -/
theorem c1_witness :
    validate_skill ["---", "name: demo-skill", "description: A demo.", "---",
      "", "# Title", "Body text"] "demo-skill" = [] :=
  c1_amended_valid_inputs
    ["---", "name: demo-skill", "description: A demo.", "---",
      "", "# Title", "Body text"]
    "demo-skill"
    ["name: demo-skill", "description: A demo."]
    ["", "# Title", "Body text"]
    (by decide)
    "demo-skill" (by decide) (by decide) (by decide) (by decide) rfl
    "A demo." (by decide) (by decide) (by decide)
    (fun hc => absurd hc (by decide))
    (by decide)

/-! ### C2 -/

/-- Modelled from the claim as stated (C2): tracking starts only at a
top-level (non-indented) line exactly equal, after stripping, to
`metadata:`; the rest of the scanner is as the claim describes it. -/
def nestedVersionClaimed : List String → Bool → Option String
  | [], _ => none
  | line :: rest, inMeta =>
    if startsWithIndent line = false ∧ pyStrip line = "metadata:" then
      nestedVersionClaimed rest true
    else if inMeta then
      if !startsWithIndent line then nestedVersionClaimed rest false
      else if !line.toList.contains ':' then nestedVersionClaimed rest true
      else
        let stripped := charStrip line.toList
        let key := stripped.takeWhile (fun c => c ≠ ':')
        let rawValue := stripped.drop (key.length + 1)
        if String.mk (charStrip key) = "version" then
          normalize_value (String.mk (charStrip rawValue))
        else nestedVersionClaimed rest true
    else nestedVersionClaimed rest false

/-- C2 counterexample: an indented `metadata:` line also starts tracking in
the source scanner (it compares the stripped line), so the code returns a
version where the claim as stated returns absent. -/
theorem c2_counterexample :
    parse_metadata_version ["  metadata:", "  version: 2"] false = some "2"
    ∧ nestedVersionClaimed ["  metadata:", "  version: 2"] false = none
    ∧ parse_metadata_version ["  metadata:", "  version: 2"] false ≠
        nestedVersionClaimed ["  metadata:", "  version: 2"] false := by
  refine ⟨by decide, by decide, by decide⟩

mutual

/-- Modelled from the amended claim (C2), not-tracking state: scan for any
line, indented or not, whose stripped content is `metadata:`. -/
def nestedVersionOutside : List String → Option String
  | [] => none
  | line :: rest =>
    if pyStrip line = "metadata:" then nestedVersionInside rest
    else nestedVersionOutside rest

/-- Modelled from the amended claim (C2), tracking state: a new trigger line
keeps tracking; a non-indented line stops tracking; an indented line without
a colon is skipped; an indented line whose text before the first colon
strips to `version` returns the normalized value of the stripped remainder;
any other indented pair is skipped. -/
def nestedVersionInside : List String → Option String
  | [] => none
  | line :: rest =>
    if pyStrip line = "metadata:" then nestedVersionInside rest
    else if !startsWithIndent line then nestedVersionOutside rest
    else if !line.toList.contains ':' then nestedVersionInside rest
    else
      let stripped := charStrip line.toList
      let key := stripped.takeWhile (fun c => c ≠ ':')
      let rawValue := stripped.drop (key.length + 1)
      if String.mk (charStrip key) = "version" then
        normalize_value (String.mk (charStrip rawValue))
      else nestedVersionInside rest

end

theorem pmv_eq_spec (fm : List String) :
    parse_metadata_version fm false = nestedVersionOutside fm
    ∧ parse_metadata_version fm true = nestedVersionInside fm := by
  induction fm with
  | nil => exact ⟨rfl, rfl⟩
  | cons line rest ih =>
    constructor
    · by_cases h : pyStrip line = "metadata:"
      · simp only [parse_metadata_version, nestedVersionOutside, if_pos h]
        exact ih.2
      · simp only [parse_metadata_version, nestedVersionOutside, if_neg h,
          Bool.false_eq_true, if_false]
        exact ih.1
    · by_cases h : pyStrip line = "metadata:"
      · simp only [parse_metadata_version, nestedVersionInside, if_pos h]
        exact ih.2
      · simp only [parse_metadata_version, nestedVersionInside, if_neg h,
          if_true]
        by_cases hi : startsWithIndent line
        · simp only [hi, Bool.not_true, Bool.false_eq_true, if_false]
          by_cases hcol : line.toList.contains ':'
          · simp only [hcol, Bool.not_true, Bool.false_eq_true, if_false]
            split
            · rfl
            · exact ih.2
          · simp only [Bool.not_eq_true', hcol]
            simp only [Bool.not_false, if_true]
            exact ih.2
        · simp only [Bool.not_eq_true] at hi
          simp only [hi, Bool.not_false, if_true]
          exact ih.1

/-- C2 (amended): the nested-version scanner starts tracking at any line,
indented or not, whose stripped content equals `metadata:`; while tracking
it returns the normalized value of the first indented line whose key (the
text before the first colon, stripped) is `version`, skips indented lines
without a colon or with another key, stops tracking at a non-indented line
(other than a new trigger), and returns absent when no such pair is found.
Stated as: the source scanner agrees with the two-state machine transcribed
from that description. -/
theorem c2_amended_scanner_equiv (fm : List String) :
    parse_metadata_version fm false = nestedVersionOutside fm :=
  (pmv_eq_spec fm).1

/-! ### C5 -/

theorem collectEntries_error_of (pre : List SkillFile) (f : SkillFile)
    (post : List SkillFile) (err : BuildError)
    (hpre : ∀ g ∈ pre, ∃ e, build_entry g = .ok e)
    (hf : build_entry f = .error err) :
    collectEntries (pre ++ f :: post) = .error err := by
  induction pre with
  | nil =>
    simp only [List.nil_append, collectEntries]
    rw [hf]
  | cons g t ih =>
    obtain ⟨e, he⟩ := hpre g (by simp)
    have ih' := ih (fun g' hg' => hpre g' (by simp [hg']))
    show collectEntries (g :: (t ++ f :: post)) = .error err
    unfold collectEntries
    rw [he, ih']

/-- C5: during catalog build, the first file whose frontmatter parsing fails,
or whose extracted name or description is absent or empty, aborts the entire
build with a single fatal error carrying that file's path (all files before
it having built successfully), and no catalog is produced. -/
theorem c5_build_aborts (pre : List SkillFile) (f : SkillFile)
    (post : List SkillFile)
    (hpre : ∀ g ∈ pre, ∃ e, build_entry g = .ok e) :
    (∀ msg, parse_frontmatter f.lines = .error msg →
      build_catalog (pre ++ f :: post) =
        .error (.valueError (f.path ++ ": " ++ msg))
      ∧ ∀ c, build_catalog (pre ++ f :: post) ≠ .ok c)
    ∧ (∀ fm body, parse_frontmatter f.lines = .ok (fm, body) →
        (truthyOpt (getField (parse_frontmatter_fields fm).1 "name") = false ∨
          truthyOpt (getField (parse_frontmatter_fields fm).1 "description")
            = false) →
        build_catalog (pre ++ f :: post) =
          .error (.valueError (f.path ++ ": missing required frontmatter fields"))
        ∧ ∀ c, build_catalog (pre ++ f :: post) ≠ .ok c) := by
  constructor
  · intro msg hparse
    have hbe : build_entry f = .error (.valueError (f.path ++ ": " ++ msg)) := by
      unfold build_entry
      rw [hparse]
    have hcoll := collectEntries_error_of pre f post _ hpre hbe
    have hbuild : build_catalog (pre ++ f :: post) =
        .error (.valueError (f.path ++ ": " ++ msg)) := by
      unfold build_catalog
      rw [hcoll]
    refine ⟨hbuild, fun c hc => ?_⟩
    rw [hbuild] at hc
    cases hc
  · intro fm body hparse hor
    have hbe : build_entry f =
        .error (.valueError (f.path ++ ": missing required frontmatter fields")) := by
      have hcond : (!truthyOpt (getField (parse_frontmatter_fields fm).1 "name") ||
          !truthyOpt (getField (parse_frontmatter_fields fm).1 "description"))
            = true := by
        rcases hor with h | h <;> simp [h]
      unfold build_entry
      rw [hparse]
      simp only [build_entry_fields, hcond, if_true]
    have hcoll := collectEntries_error_of pre f post _ hpre hbe
    have hbuild : build_catalog (pre ++ f :: post) =
        .error (.valueError (f.path ++ ": missing required frontmatter fields")) := by
      unfold build_catalog
      rw [hcoll]
    refine ⟨hbuild, fun c hc => ?_⟩
    rw [hbuild] at hc
    cases hc

/-- Witness for C5: a record missing the closing marker aborts a concrete
build with a fatal error naming that file. -/
theorem c5_witness :
    build_catalog [⟨"skills/foo", ["---", "name: foo"], .missing⟩] =
      .error (.valueError ("skills/foo" ++ ": " ++ closeDelimErr)) :=
  ((c5_build_aborts [] ⟨"skills/foo", ["---", "name: foo"], .missing⟩ []
      (fun g hg => nomatch hg)).1 closeDelimErr (by decide)).1

/-! ### Order lemmas for the catalog sort -/

theorem charListLt_asymm (as bs : List Char) (h : charListLt as bs = true) :
    charListLt bs as = false := by
  induction as generalizing bs with
  | nil =>
    cases bs with
    | nil => cases h
    | cons b bt => rfl
  | cons a at' ih =>
    cases bs with
    | nil => cases h
    | cons b bt =>
      unfold charListLt at h ⊢
      by_cases hab : a < b
      · rw [if_neg (lt_asymm hab), if_pos hab]
      · rw [if_neg hab] at h
        by_cases hba : b < a
        · rw [if_pos hba] at h
          cases h
        · rw [if_neg hba] at h
          rw [if_neg hba, if_neg hab]
          exact ih bt h

theorem charListLt_eq_of_not_lt (as bs : List Char)
    (h1 : charListLt as bs = false) (h2 : charListLt bs as = false) :
    as = bs := by
  induction as generalizing bs with
  | nil =>
    cases bs with
    | nil => rfl
    | cons b bt => cases h1
  | cons a at' ih =>
    cases bs with
    | nil => cases h2
    | cons b bt =>
      unfold charListLt at h1 h2
      by_cases hab : a < b
      · rw [if_pos hab] at h1
        cases h1
      · by_cases hba : b < a
        · rw [if_pos hba] at h2
          cases h2
        · rw [if_neg hab, if_neg hba] at h1
          rw [if_neg hba, if_neg hab] at h2
          have heq : a = b := le_antisymm (not_lt.mp hba) (not_lt.mp hab)
          rw [heq, ih bt h1 h2]

theorem charListLt_trans (as bs cs : List Char)
    (h1 : charListLt as bs = true) (h2 : charListLt bs cs = true) :
    charListLt as cs = true := by
  induction as generalizing bs cs with
  | nil =>
    cases bs with
    | nil => cases h1
    | cons b bt =>
      cases cs with
      | nil => cases h2
      | cons c ct => rfl
  | cons a at' ih =>
    cases bs with
    | nil => cases h1
    | cons b bt =>
      cases cs with
      | nil => cases h2
      | cons c ct =>
        unfold charListLt at h1 h2 ⊢
        by_cases hab : a < b
        · by_cases hbc : b < c
          · rw [if_pos (lt_trans hab hbc)]
          · by_cases hcb : c < b
            · rw [if_neg hbc, if_pos hcb] at h2
              cases h2
            · have hbceq : b = c := le_antisymm (not_lt.mp hcb) (not_lt.mp hbc)
              subst hbceq
              rw [if_pos hab]
        · by_cases hba : b < a
          · rw [if_neg hab, if_pos hba] at h1
            cases h1
          · have habeq : a = b := le_antisymm (not_lt.mp hba) (not_lt.mp hab)
            rw [if_neg hab, if_neg hba] at h1
            subst habeq
            by_cases hac : a < c
            · rw [if_pos hac]
            · by_cases hca : c < a
              · rw [if_neg hac, if_pos hca] at h2
                cases h2
              · rw [if_neg hac, if_neg hca] at h2
                rw [if_neg hac, if_neg hca]
                exact ih bt ct h1 h2

theorem pyStrLt_asymm (s t : String) (h : pyStrLt s t = true) :
    pyStrLt t s = false :=
  charListLt_asymm _ _ h

theorem pyStrLt_trans (s t u : String) (h1 : pyStrLt s t = true)
    (h2 : pyStrLt t u = true) : pyStrLt s u = true :=
  charListLt_trans _ _ _ h1 h2

theorem eq_of_not_pyStrLt (s t : String) (h1 : pyStrLt s t = false)
    (h2 : pyStrLt t s = false) : s = t := by
  have hd := charListLt_eq_of_not_lt _ _ h1 h2
  cases s with
  | mk d1 =>
    cases t with
    | mk d2 =>
      have hdd : d1 = d2 := hd
      rw [hdd]

theorem insertByName_perm (x : CatalogEntry) (l : List CatalogEntry) :
    (insertByName x l).Perm (x :: l) := by
  induction l with
  | nil => exact List.Perm.refl _
  | cons y ys ih =>
    unfold insertByName
    by_cases h : pyStrLt x.name y.name = true
    · rw [if_pos h]
    · rw [if_neg h]
      exact (List.Perm.cons y ih).trans (List.Perm.swap x y ys)

theorem sortByName_perm (l : List CatalogEntry) : (sortByName l).Perm l := by
  have key : ∀ (l acc : List CatalogEntry),
      (List.foldl (fun acc x => insertByName x acc) acc l).Perm (acc ++ l) := by
    intro l
    induction l with
    | nil =>
      intro acc
      simp
    | cons x t ih =>
      intro acc
      refine (ih (insertByName x acc)).trans ?_
      refine ((insertByName_perm x acc).append_right t).trans ?_
      exact List.perm_middle.symm
  simpa using key l []

theorem insertByName_pairwise (x : CatalogEntry) (l : List CatalogEntry)
    (h : List.Pairwise (fun a b => pyStrLt b.name a.name = false) l) :
    List.Pairwise (fun a b => pyStrLt b.name a.name = false)
      (insertByName x l) := by
  induction l with
  | nil => simp [insertByName]
  | cons y ys ih =>
    rcases List.pairwise_cons.mp h with ⟨hy, hys⟩
    unfold insertByName
    by_cases hxy : pyStrLt x.name y.name = true
    · rw [if_pos hxy]
      refine List.pairwise_cons.mpr ⟨?_, h⟩
      intro z hz
      rcases List.mem_cons.mp hz with rfl | hz'
      · exact pyStrLt_asymm _ _ hxy
      · cases hzx : pyStrLt z.name x.name with
        | false => rfl
        | true =>
          have h2 : pyStrLt z.name y.name = true :=
            pyStrLt_trans _ _ _ hzx hxy
          rw [hy z hz'] at h2
          cases h2
    · rw [if_neg hxy]
      refine List.pairwise_cons.mpr ⟨?_, ih hys⟩
      intro z hz
      have hz' : z ∈ x :: ys := (insertByName_perm x ys).mem_iff.mp hz
      rcases List.mem_cons.mp hz' with rfl | hz''
      · simpa using hxy
      · exact hy z hz''

theorem sortByName_pairwise (l : List CatalogEntry) :
    List.Pairwise (fun a b => pyStrLt b.name a.name = false) (sortByName l) := by
  have key : ∀ (l acc : List CatalogEntry),
      List.Pairwise (fun a b => pyStrLt b.name a.name = false) acc →
      List.Pairwise (fun a b => pyStrLt b.name a.name = false)
        (List.foldl (fun acc x => insertByName x acc) acc l) := by
    intro l
    induction l with
    | nil => exact fun acc h => h
    | cons x t ih => exact fun acc h => ih _ (insertByName_pairwise x acc h)
  exact key l [] List.Pairwise.nil

/-! ### C9 -/

/-- The entry built for a file, defaulting when the build of that entry
fails (used only to transport permutations of successful builds). -/
def entryOf (f : SkillFile) : CatalogEntry :=
  match build_entry f with
  | .ok e => e
  | .error _ => default

theorem collectEntries_ok_forall (files : List SkillFile)
    (es : List CatalogEntry) (h : collectEntries files = .ok es) :
    es.length = files.length ∧ es = files.map entryOf := by
  induction files generalizing es with
  | nil =>
    injection h with h'
    subst h'
    exact ⟨rfl, rfl⟩
  | cons f t ih =>
    unfold collectEntries at h
    cases hbe : build_entry f with
    | error e =>
      rw [hbe] at h
      cases h
    | ok entry =>
      rw [hbe] at h
      cases hct : collectEntries t with
      | error e =>
        rw [hct] at h
        cases h
      | ok entries =>
        rw [hct] at h
        injection h with h'
        subst h'
        obtain ⟨hlen, hmap⟩ := ih entries hct
        refine ⟨by simp [hlen], ?_⟩
        simp only [List.map_cons]
        rw [← hmap]
        have : entryOf f = entry := by
          unfold entryOf
          rw [hbe]
        rw [this]

theorem build_catalog_ok_elim (files : List SkillFile) (c : Catalog)
    (h : build_catalog files = .ok c) :
    ∃ es, collectEntries files = .ok es ∧ c = ⟨sortByName es⟩ := by
  unfold build_catalog at h
  cases hce : collectEntries files with
  | error e =>
    rw [hce] at h
    cases h
  | ok es =>
    rw [hce] at h
    injection h with h'
    exact ⟨es, rfl, h'.symm⟩

/-- C9: every built catalog's skills sequence is sorted ascending by name
under the case-sensitive lexicographic (code point) ordering, with one
record per discovered file and no deduplication; in particular two valid
records named `b-skill` and `a-skill` appear with `a-skill` first. -/
theorem c9_catalog_sorted_by_name :
    (∀ files c, build_catalog files = .ok c →
      List.Pairwise (fun a b => pyStrLt b.name a.name = false) c.skills
      ∧ c.skills.length = files.length)
    ∧ (∃ c, build_catalog
        [⟨"skills/b-skill",
          ["---", "name: b-skill", "description: B.", "---", "Body"],
          .missing⟩,
         ⟨"skills/a-skill",
          ["---", "name: a-skill", "description: A.", "---", "Body"],
          .missing⟩] = .ok c
        ∧ c.skills.map (fun e => e.name) = ["a-skill", "b-skill"]) := by
  constructor
  · intro files c h
    obtain ⟨es, hce, hc⟩ := build_catalog_ok_elim files c h
    subst hc
    refine ⟨sortByName_pairwise es, ?_⟩
    calc (sortByName es).length = es.length := (sortByName_perm es).length_eq
      _ = files.length := (collectEntries_ok_forall files es hce).1
  · exact ⟨⟨[{ name := "a-skill", description := "A.", path := "skills/a-skill" },
      { name := "b-skill", description := "B.", path := "skills/b-skill" }]⟩,
      rfl, rfl⟩

/-- Witness for C9: sortedness and length of a concrete two-file build,
obtained by applying the theorem. -/
theorem c9_witness :
    List.Pairwise (fun a b => pyStrLt b.name a.name = false)
      (Catalog.mk [{ name := "a-skill", description := "A.", path := "skills/a-skill" },
        { name := "b-skill", description := "B.", path := "skills/b-skill" }]).skills
    ∧ (Catalog.mk [{ name := "a-skill", description := "A.", path := "skills/a-skill" },
        { name := "b-skill", description := "B.", path := "skills/b-skill" }]).skills.length
      = 2 :=
  c9_catalog_sorted_by_name.1
    [⟨"skills/b-skill",
      ["---", "name: b-skill", "description: B.", "---", "Body"], .missing⟩,
     ⟨"skills/a-skill",
      ["---", "name: a-skill", "description: A.", "---", "Body"], .missing⟩]
    (Catalog.mk [{ name := "a-skill", description := "A.", path := "skills/a-skill" },
      { name := "b-skill", description := "B.", path := "skills/b-skill" }])
    rfl

/-! ### C3 -/

theorem pairwise_lt_of_le_nodup (l : List CatalogEntry)
    (hle : List.Pairwise (fun a b => pyStrLt b.name a.name = false) l)
    (hnd : (l.map (fun e => e.name)).Nodup) :
    List.Pairwise (fun a b => pyStrLt a.name b.name = true) l := by
  have hne : List.Pairwise (fun a b => a.name ≠ b.name) l :=
    List.pairwise_map.mp hnd
  refine (hle.and hne).imp ?_
  intro a b hab
  obtain ⟨h1, h2⟩ := hab
  cases hx : pyStrLt a.name b.name with
  | true => rfl
  | false => exact absurd (eq_of_not_pyStrLt _ _ hx h1) h2

theorem eq_of_perm_of_strict_sorted (l1 l2 : List CatalogEntry)
    (hp : l1.Perm l2)
    (h1 : List.Pairwise (fun a b => pyStrLt a.name b.name = true) l1)
    (h2 : List.Pairwise (fun a b => pyStrLt a.name b.name = true) l2) :
    l1 = l2 := by
  haveI : IsAntisymm CatalogEntry (fun a b => pyStrLt a.name b.name = true) := by
    refine ⟨fun a b hab hba => ?_⟩
    have hfalse := pyStrLt_asymm _ _ hab
    rw [hba] at hfalse
    cases hfalse
  exact List.eq_of_perm_of_sorted hp h1 h2

/-- C3 counterexample: two distinct records sharing the same name.  The sort
by name alone is stable, so the two discovery orders produce catalogs whose
equal-named entries keep their discovery order, and the catalogs differ. -/
theorem c3_counterexample :
    ∃ c1 c2,
      build_catalog
        [⟨"p1", ["---", "name: same-skill", "description: D.", "---", "Body"],
          .missing⟩,
         ⟨"p2", ["---", "name: same-skill", "description: D.", "---", "Body"],
          .missing⟩] = .ok c1
      ∧ build_catalog
        [⟨"p2", ["---", "name: same-skill", "description: D.", "---", "Body"],
          .missing⟩,
         ⟨"p1", ["---", "name: same-skill", "description: D.", "---", "Body"],
          .missing⟩] = .ok c2
      ∧ c1.skills.map (fun e => e.path) = ["p1", "p2"]
      ∧ c2.skills.map (fun e => e.path) = ["p2", "p1"]
      ∧ c1 ≠ c2 := by
  refine ⟨⟨[{ name := "same-skill", description := "D.", path := "p1" },
      { name := "same-skill", description := "D.", path := "p2" }]⟩,
    ⟨[{ name := "same-skill", description := "D.", path := "p2" },
      { name := "same-skill", description := "D.", path := "p1" }]⟩,
    rfl, rfl, rfl, rfl, ?_⟩
  intro h
  have h2 := congrArg (fun c => c.skills.map (fun e => e.path)) h
  have h3 : (["p1", "p2"] : List String) = ["p2", "p1"] := h2
  exact absurd h3 (by decide)

theorem insertByName_filter (x : CatalogEntry) (l : List CatalogEntry)
    (n : String)
    (hs : List.Pairwise (fun a b => pyStrLt b.name a.name = false) l) :
    (insertByName x l).filter (fun e => e.name == n) =
      if x.name == n then l.filter (fun e => e.name == n) ++ [x]
      else l.filter (fun e => e.name == n) := by
  induction l with
  | nil =>
    by_cases hxn : (x.name == n) = true <;>
      simp [insertByName, List.filter, hxn]
  | cons y ys ih =>
    rcases List.pairwise_cons.mp hs with ⟨hy, hys⟩
    unfold insertByName
    by_cases hxy : pyStrLt x.name y.name = true
    · rw [if_pos hxy]
      by_cases hxn : (x.name == n) = true
      · have hxn' : x.name = n := by simpa using hxn
        have hempty : (y :: ys).filter (fun e => e.name == n) = [] := by
          rw [List.filter_eq_nil_iff]
          intro z hz hzn
          have hzn' : z.name = n := by simpa using hzn
          rcases List.mem_cons.mp hz with rfl | hz'
          · have heq : x.name = z.name := hxn'.trans hzn'.symm
            rw [heq] at hxy
            have hfalse := pyStrLt_asymm _ _ hxy
            rw [hxy] at hfalse
            cases hfalse
          · have hzy := hy z hz'
            have heq : z.name = x.name := hzn'.trans hxn'.symm
            rw [heq, hxy] at hzy
            cases hzy
        rw [List.filter_cons, if_pos hxn, hempty]
        simp [hxn]
      · simp [List.filter_cons, hxn]
    · rw [if_neg hxy]
      rw [List.filter_cons, ih hys]
      by_cases hyn : (y.name == n) = true <;>
        by_cases hxn : (x.name == n) = true <;>
          simp [List.filter_cons, hyn, hxn]

theorem sortByName_filter (l : List CatalogEntry) (n : String) :
    (sortByName l).filter (fun e => e.name == n) =
      l.filter (fun e => e.name == n) := by
  have key : ∀ (l acc : List CatalogEntry),
      List.Pairwise (fun a b => pyStrLt b.name a.name = false) acc →
      (List.foldl (fun acc x => insertByName x acc) acc l).filter
          (fun e => e.name == n) =
        acc.filter (fun e => e.name == n) ++
          l.filter (fun e => e.name == n) := by
    intro l
    induction l with
    | nil =>
      intro acc h
      simp
    | cons x t ih =>
      intro acc h
      rw [List.foldl_cons, ih (insertByName x acc) (insertByName_pairwise x acc h),
        insertByName_filter x acc n h]
      by_cases hxn : (x.name == n) = true <;>
        simp [List.filter_cons, hxn]
  simpa using key l [] List.Pairwise.nil

/-- C3 (amended): for a fixed set of discovered files on which the build
succeeds, any two discovery orders yield catalogs holding the same records
(the skills sequences are permutations of each other); when all record
names are distinct the catalogs are identical; and the sort is stable, so
the records carrying any fixed name appear in the catalog exactly in their
discovery order (with duplicate names the catalogs can therefore differ
across discovery orders, as the counterexample shows). -/
theorem c3_amended_deterministic :
    (∀ (l1 l2 : List SkillFile) (c1 c2 : Catalog),
      l1.Perm l2 → build_catalog l1 = .ok c1 → build_catalog l2 = .ok c2 →
      c1.skills.Perm c2.skills)
    ∧ (∀ (l1 l2 : List SkillFile) (c1 c2 : Catalog),
      l1.Perm l2 → build_catalog l1 = .ok c1 → build_catalog l2 = .ok c2 →
      (c1.skills.map (fun e => e.name)).Nodup →
      c1 = c2)
    ∧ (∀ (files : List SkillFile) (c : Catalog) (n : String),
      build_catalog files = .ok c →
      c.skills.filter (fun e => e.name == n) =
        (files.map entryOf).filter (fun e => e.name == n)) := by
  have hsameRecords : ∀ (l1 l2 : List SkillFile) (c1 c2 : Catalog),
      l1.Perm l2 → build_catalog l1 = .ok c1 → build_catalog l2 = .ok c2 →
      c1.skills.Perm c2.skills := by
    intro l1 l2 c1 c2 hperm h1 h2
    obtain ⟨es1, hce1, hc1⟩ := build_catalog_ok_elim l1 c1 h1
    obtain ⟨es2, hce2, hc2⟩ := build_catalog_ok_elim l2 c2 h2
    have hm1 := (collectEntries_ok_forall l1 es1 hce1).2
    have hm2 := (collectEntries_ok_forall l2 es2 hce2).2
    have hpe : es1.Perm es2 := by
      rw [hm1, hm2]
      exact hperm.map entryOf
    have hps1 : c1.skills.Perm es1 := by
      rw [hc1]
      exact sortByName_perm es1
    have hps2 : c2.skills.Perm es2 := by
      rw [hc2]
      exact sortByName_perm es2
    exact hps1.trans (hpe.trans hps2.symm)
  refine ⟨hsameRecords, ?_, ?_⟩
  · intro l1 l2 c1 c2 hperm h1 h2 hnd
    obtain ⟨es1, hce1, hc1⟩ := build_catalog_ok_elim l1 c1 h1
    obtain ⟨es2, hce2, hc2⟩ := build_catalog_ok_elim l2 c2 h2
    have hp : c1.skills.Perm c2.skills :=
      hsameRecords l1 l2 c1 c2 hperm h1 h2
    have hsort1 : List.Pairwise (fun a b => pyStrLt b.name a.name = false)
        c1.skills := by
      rw [hc1]
      exact sortByName_pairwise es1
    have hsort2 : List.Pairwise (fun a b => pyStrLt b.name a.name = false)
        c2.skills := by
      rw [hc2]
      exact sortByName_pairwise es2
    have hnd2 : (c2.skills.map (fun e => e.name)).Nodup :=
      ((hp.map (fun e => e.name)).nodup_iff).mp hnd
    have hskills := eq_of_perm_of_strict_sorted c1.skills c2.skills hp
      (pairwise_lt_of_le_nodup _ hsort1 hnd)
      (pairwise_lt_of_le_nodup _ hsort2 hnd2)
    cases c1 with
    | mk s1 =>
      cases c2 with
      | mk s2 => exact congrArg Catalog.mk hskills
  · intro files c n h
    obtain ⟨es, hce, hc⟩ := build_catalog_ok_elim files c h
    have hmap := (collectEntries_ok_forall files es hce).2
    rw [hc]
    show (sortByName es).filter (fun e => e.name == n) = _
    rw [sortByName_filter, hmap]

/-- Witness for the amended C3: two distinct-name files built in both
discovery orders give permuted and in fact equal catalogs, and at a
duplicate-name input the catalog lists the equal-named records in discovery
order; all three facts obtained by applying the amended theorem. -/
theorem c3_witness :
    (∃ c1 c2,
      build_catalog
        [⟨"q1", ["---", "name: aa", "description: D.", "---", "Body"],
          .missing⟩,
         ⟨"q2", ["---", "name: bb", "description: D.", "---", "Body"],
          .missing⟩] = .ok c1
      ∧ build_catalog
        [⟨"q2", ["---", "name: bb", "description: D.", "---", "Body"],
          .missing⟩,
         ⟨"q1", ["---", "name: aa", "description: D.", "---", "Body"],
          .missing⟩] = .ok c2
      ∧ c1.skills.Perm c2.skills
      ∧ c1 = c2)
    ∧ (Catalog.mk [{ name := "same-skill", description := "D.", path := "p1" },
        { name := "same-skill", description := "D.", path := "p2" }]).skills.filter
          (fun e => e.name == "same-skill") =
      ([⟨"p1", ["---", "name: same-skill", "description: D.", "---", "Body"],
          .missing⟩,
        ⟨"p2", ["---", "name: same-skill", "description: D.", "---", "Body"],
          .missing⟩].map entryOf).filter (fun e => e.name == "same-skill") := by
  constructor
  · refine ⟨⟨[{ name := "aa", description := "D.", path := "q1" },
        { name := "bb", description := "D.", path := "q2" }]⟩,
      ⟨[{ name := "aa", description := "D.", path := "q1" },
        { name := "bb", description := "D.", path := "q2" }]⟩,
      rfl, rfl, ?_, ?_⟩
    · exact c3_amended_deterministic.1
        [⟨"q1", ["---", "name: aa", "description: D.", "---", "Body"], .missing⟩,
         ⟨"q2", ["---", "name: bb", "description: D.", "---", "Body"], .missing⟩]
        [⟨"q2", ["---", "name: bb", "description: D.", "---", "Body"], .missing⟩,
         ⟨"q1", ["---", "name: aa", "description: D.", "---", "Body"], .missing⟩]
        ⟨[{ name := "aa", description := "D.", path := "q1" },
          { name := "bb", description := "D.", path := "q2" }]⟩
        ⟨[{ name := "aa", description := "D.", path := "q1" },
          { name := "bb", description := "D.", path := "q2" }]⟩
        (List.Perm.swap _ _ _)
        rfl rfl
    · exact c3_amended_deterministic.2.1
        [⟨"q1", ["---", "name: aa", "description: D.", "---", "Body"], .missing⟩,
         ⟨"q2", ["---", "name: bb", "description: D.", "---", "Body"], .missing⟩]
        [⟨"q2", ["---", "name: bb", "description: D.", "---", "Body"], .missing⟩,
         ⟨"q1", ["---", "name: aa", "description: D.", "---", "Body"], .missing⟩]
        ⟨[{ name := "aa", description := "D.", path := "q1" },
          { name := "bb", description := "D.", path := "q2" }]⟩
        ⟨[{ name := "aa", description := "D.", path := "q1" },
          { name := "bb", description := "D.", path := "q2" }]⟩
        (List.Perm.swap _ _ _)
        rfl rfl (by decide)
  · exact c3_amended_deterministic.2.2
      [⟨"p1", ["---", "name: same-skill", "description: D.", "---", "Body"],
        .missing⟩,
       ⟨"p2", ["---", "name: same-skill", "description: D.", "---", "Body"],
        .missing⟩]
      (Catalog.mk [{ name := "same-skill", description := "D.", path := "p1" },
        { name := "same-skill", description := "D.", path := "p2" }])
      "same-skill"
      rfl

/-- Modelled from the claim as stated (C6): the nested metadata version is
used whenever it is present; else the sidecar version when it is a string;
else the field is omitted. -/
def versionResolutionClaimed (metadataVersion : Option String)
    (marketplace : Json) : Option String :=
  match metadataVersion with
  | some v => some v
  | none =>
    match marketplace with
    | .obj kvs =>
      match kvs.lookup "version" with
      | some (Json.str s) => some s
      | _ => none
    | _ => none

/-- Modelled from the amended claim (C6): the nested metadata version is
used only when it is present and non-empty (Python truthiness); else the
sidecar version when it is a string; else the field is omitted. -/
def versionResolutionAmended (metadataVersion : Option String)
    (marketplace : Json) : Option String :=
  if truthyOpt metadataVersion then metadataVersion
  else
    match marketplace with
    | .obj kvs =>
      match kvs.lookup "version" with
      | some (Json.str s) => some s
      | _ => none
    | _ => none

/-- C6 counterexample: a nested `version: ''` normalizes to the present but
empty string, which is falsy, so the code falls through to the sidecar
version, while the claim's nested-first-when-present rule would keep the
empty nested value. -/
theorem c6_counterexample :
    parse_metadata_version
      ["name: c", "description: d", "metadata:",
        "  version: " ++ squote ++ squote] false = some ""
    ∧ (∃ e, build_entry
        ⟨"skills/c",
          ["---", "name: c", "description: d", "metadata:",
            "  version: " ++ squote ++ squote, "---", "x"],
          .parsed (.obj [("version", .str "1.0")])⟩ = .ok e
        ∧ e.version = some "1.0"
        ∧ e.version ≠ versionResolutionClaimed
            (parse_metadata_version
              ["name: c", "description: d", "metadata:",
                "  version: " ++ squote ++ squote] false)
            (read_marketplace (.parsed (.obj [("version", .str "1.0")])))) := by
  refine ⟨by decide,
    ⟨{ name := "c", description := "d", path := "skills/c", version := some "1.0" },
      rfl, rfl, by decide⟩⟩

/-- C6 (amended): for every record in the built catalog the version field is
resolved with priority: the nested metadata version when present and
non-empty, else the sidecar version when it is a string, else omitted; and a
sidecar that is missing, unreadable, or fails JSON parsing is treated
exactly as no auxiliary data, so it never changes the outcome of building an
entry and never causes the build to fail. -/
theorem c6_amended_version_resolution :
    (∀ (f : SkillFile) (fm body : List String) (e : CatalogEntry),
      parse_frontmatter f.lines = .ok (fm, body) →
      build_entry f = .ok e →
      e.version = versionResolutionAmended (parse_metadata_version fm false)
        (read_marketplace f.sidecar))
    ∧ (∀ (f : SkillFile) (s1 s2 : Sidecar),
        (s1 = .missing ∨ s1 = .unreadable ∨ s1 = .malformed) →
        (s2 = .missing ∨ s2 = .unreadable ∨ s2 = .malformed) →
        build_entry { f with sidecar := s1 } =
          build_entry { f with sidecar := s2 }) := by
  constructor
  · intro f fm body e hp hbe
    have hred : build_entry f = build_entry_fields f fm := by
      unfold build_entry
      rw [hp]
    rw [hred] at hbe
    simp only [build_entry_fields] at hbe
    by_cases hcond :
        (!truthyOpt (getField (parse_frontmatter_fields fm).1 "name") ||
          !truthyOpt (getField (parse_frontmatter_fields fm).1 "description"))
          = true
    · rw [if_pos hcond] at hbe
      cases hbe
    · rw [if_neg hcond] at hbe
      unfold versionResolutionAmended
      cases hmp : read_marketplace f.sidecar with
      | obj kvs =>
        rw [hmp] at hbe
        injection hbe with he
        subst he
        rfl
      | str s =>
        rw [hmp] at hbe
        cases hbe
      | num n =>
        rw [hmp] at hbe
        cases hbe
      | boolean b =>
        rw [hmp] at hbe
        cases hbe
      | null =>
        rw [hmp] at hbe
        cases hbe
      | arr a =>
        rw [hmp] at hbe
        cases hbe
  · intro f s1 s2 h1 h2
    rcases h1 with rfl | rfl | rfl <;> rcases h2 with rfl | rfl | rfl <;> rfl

/-- Witness for the amended C6: a concrete entry's version comes from the
non-empty nested metadata version even though the sidecar offers another
string, and a missing and a malformed sidecar build identical entries. -/
theorem c6_witness :
    ({ name := "c", description := "d", path := "skills/c",
        version := some "2.0" } : CatalogEntry).version =
      versionResolutionAmended
        (parse_metadata_version
          ["name: c", "description: d", "metadata:", "  version: 2.0"] false)
        (read_marketplace (.parsed (.obj [("version", .str "9.9")])))
    ∧ build_entry
        ⟨"skills/c", ["---", "name: c", "description: d", "---", "x"],
          .missing⟩ =
      build_entry
        ⟨"skills/c", ["---", "name: c", "description: d", "---", "x"],
          .malformed⟩ := by
  constructor
  · exact c6_amended_version_resolution.1
      ⟨"skills/c",
        ["---", "name: c", "description: d", "metadata:", "  version: 2.0",
          "---", "x"],
        .parsed (.obj [("version", .str "9.9")])⟩
      ["name: c", "description: d", "metadata:", "  version: 2.0"]
      ["x"]
      { name := "c", description := "d", path := "skills/c",
        version := some "2.0" }
      rfl rfl
  · exact c6_amended_version_resolution.2
      ⟨"skills/c", ["---", "name: c", "description: d", "---", "x"],
        .missing⟩
      .missing .malformed (Or.inl rfl) (Or.inr (Or.inr rfl))
